import Mathlib

/-!
# Verification of the IP discovery and geolocation pipeline (`ip_utils.py`)

Shallow embedding of the pure/decidable core of `src/ip_utils.py`:

* `normalize_city_name` — city-name canonicalization (NFKD accent stripping,
  lower-casing, `strip()`, and the two `re.sub` calls);
* `is_city_allowed`   — the allow-list matcher;
* `get_city_from_ip`  — the geolocation resolver, with the HTTP world passed
  in explicitly as a value of type `HttpOutcome` and the number of outbound
  calls returned alongside the result;
* `get_client_ip`     — the IP resolver fallback chain, with the HTTP world
  passed in as a function from URL to `HttpOutcome` and the list of URLs
  actually contacted returned alongside the result.

Machine-level boundaries of the embedding: Unicode NFKD decomposition,
`unicodedata.combining`, `str.lower` and the whitespace classes of
`str.strip`/`\s` are modelled character-by-character, faithfully for the
ASCII range plus the precomposed Latin letters listed in `nfkdTable`
(the characters that occur in this repository's data); other characters
are treated as atomic, non-combining and case-less.
-/

/-! ## Character-level model of the Python text primitives -/

/-- Python whitespace (`str.strip` / regex `\s`), ASCII range:
space, tab, newline, carriage return, vertical tab, form feed. -/
def isPySpace (c : Char) : Bool :=
  c = ' ' || c = '\t' || c = '\n' || c = '\r' || c = '\x0b' || c = '\x0c'

/-- NFKD decomposition table for the precomposed Latin letters relevant to
this repository (Portuguese city names). Each entry maps a precomposed
character to its NFKD decomposition (base letter followed by a combining
mark). Characters not listed decompose to themselves. -/
def nfkdTable : List (Char × List Char) := [
  ('á', ['a', '́']), ('à', ['a', '̀']), ('â', ['a', '̂']),
  ('ã', ['a', '̃']), ('ä', ['a', '̈']),
  ('é', ['e', '́']), ('è', ['e', '̀']), ('ê', ['e', '̂']),
  ('ë', ['e', '̈']),
  ('í', ['i', '́']), ('ì', ['i', '̀']), ('î', ['i', '̂']),
  ('ï', ['i', '̈']),
  ('ó', ['o', '́']), ('ò', ['o', '̀']), ('ô', ['o', '̂']),
  ('õ', ['o', '̃']), ('ö', ['o', '̈']),
  ('ú', ['u', '́']), ('ù', ['u', '̀']), ('û', ['u', '̂']),
  ('ü', ['u', '̈']),
  ('ç', ['c', '̧']), ('ñ', ['n', '̃']), ('ý', ['y', '́']),
  ('Á', ['A', '́']), ('À', ['A', '̀']), ('Â', ['A', '̂']),
  ('Ã', ['A', '̃']), ('Ä', ['A', '̈']),
  ('É', ['E', '́']), ('È', ['E', '̀']), ('Ê', ['E', '̂']),
  ('Ë', ['E', '̈']),
  ('Í', ['I', '́']), ('Ì', ['I', '̀']), ('Î', ['I', '̂']),
  ('Ï', ['I', '̈']),
  ('Ó', ['O', '́']), ('Ò', ['O', '̀']), ('Ô', ['O', '̂']),
  ('Õ', ['O', '̃']), ('Ö', ['O', '̈']),
  ('Ú', ['U', '́']), ('Ù', ['U', '̀']), ('Û', ['U', '̂']),
  ('Ü', ['U', '̈']),
  ('Ç', ['C', '̧']), ('Ñ', ['N', '̃']), ('Ý', ['Y', '́'])]

/-- `unicodedata.normalize('NFKD', ·)` at the level of a single character. -/
def nfkdChar (c : Char) : List Char :=
  match nfkdTable.find? (fun p => p.1 = c) with
  | some p => p.2
  | none => [c]

/-- `unicodedata.combining(c) != 0`: the combining diacritical marks block. -/
def isCombining (c : Char) : Bool :=
  0x300 ≤ c.toNat && c.toNat ≤ 0x36F

/-- Regex character class `[A-Z]` (case-sensitive, as in the source). -/
def isUpperAZ (c : Char) : Bool :=
  65 ≤ c.toNat && c.toNat ≤ 90

/-- `str.lower` at the level of a single character (ASCII letters). -/
def pyLowerChar (c : Char) : Char :=
  if isUpperAZ c then Char.ofNat (c.toNat + 32) else c

/-- `str.strip()`: drop leading and trailing whitespace. -/
def pyStrip (l : List Char) : List Char :=
  ((l.dropWhile isPySpace).reverse.dropWhile isPySpace).reverse

/-- Does the regex `\s*-\s*[A-Z]{2}\s*$` match when anchored at the start of
`l` (with `$` = end of input)?  Both `\s*` runs are forced: the quantified
classes are disjoint from the literal `-` and from `[A-Z]`, so greedy
matching with backtracking reduces to `dropWhile`. A trailing `\s*$`
succeeds exactly when the remainder is all whitespace (this also covers the
`$`-before-a-final-newline rule because `\n` is itself whitespace). -/
def matchRegionAt (l : List Char) : Bool :=
  match l.dropWhile isPySpace with
  | '-' :: rest =>
    match rest.dropWhile isPySpace with
    | a :: b :: rest2 => isUpperAZ a && isUpperAZ b && rest2.all isPySpace
    | _ => false
  | _ => false

/-- `re.sub(r'\s*-\s*[A-Z]{2}\s*$', '', ·)` (source line 89): scan left to
right for the first position where the pattern matches; the match always
extends to the end of the input, so the substitution keeps the prefix. -/
def subRegionTail : List Char → List Char
  | [] => []
  | c :: rest =>
    if matchRegionAt (c :: rest) then [] else c :: subRegionTail rest

/-- Does `.*$` match the remainder `u` exactly?  `.` does not match `\n`,
and `$` matches at the end of input or just before a final newline, so the
condition is: every character of `u` except possibly the last is not a
newline. -/
def dotStarEnd (u : List Char) : Bool :=
  u.dropLast.all (fun c => c != '\n')

/-- Does the regex `\s*,\s*.*$` match when anchored at the start of `l`?
As in `matchRegionAt`, the `\s*` runs reduce to `dropWhile` (a shorter
whitespace run only shrinks the `.*$` remainder, and `.*$` matching is
closed under taking suffixes), leaving `dotStarEnd` on the remainder. -/
def matchCommaAt (l : List Char) : Bool :=
  match l.dropWhile isPySpace with
  | ',' :: rest => dotStarEnd (rest.dropWhile isPySpace)
  | _ => false

/-- The part of a successful `\s*,\s*.*$` match that the engine does NOT
consume: when the remainder after the comma ends in a newline, `.*` cannot
consume it and `$` matches just before it, so that final newline survives
the substitution. -/
def commaKeep (l : List Char) : List Char :=
  match l.dropWhile isPySpace with
  | ',' :: rest =>
    if (rest.dropWhile isPySpace).getLast? = some '\n' then ['\n'] else []
  | _ => []

/-- `re.sub(r'\s*,\s*.*$', '', ·)` (source line 90): substitute the first
(leftmost) match; the match reaches the end of input except possibly for a
final newline, so at most one substitution happens. -/
def subCommaTail : List Char → List Char
  | [] => []
  | c :: rest =>
    if matchCommaAt (c :: rest) then commaKeep (c :: rest)
    else c :: subCommaTail rest

/-! ## `normalize_city_name` (source lines 79-91) -/

/-- `normalize_city_name(city_name)`: NFKD-decompose, drop combining marks,
lower-case, strip, remove a trailing region-code suffix via
`re.sub(r'\s*-\s*[A-Z]{2}\s*$', '', ·)`, then remove everything from the
first comma via `re.sub(r'\s*,\s*.*$', '', ·)`. Empty input returns the
empty string (`if not city_name`). -/
def normalize_city_name (city_name : String) : String :=
  if city_name = "" then ""
  else
    let nfkd := city_name.data.flatMap nfkdChar
    let city_normalized := nfkd.filter (fun c => !isCombining c)
    let city_clean := pyStrip (city_normalized.map pyLowerChar)
    let city_clean2 := subRegionTail city_clean
    let city_clean3 := subCommaTail city_clean2
    String.mk city_clean3

/-! ## `is_city_allowed` (source lines 151-163) -/

/-- `is_city_allowed(city_name, allowed_cities)`. The first argument is an
`Option String` so that the Python `None` input is representable; Python's
`if not city_name` is false exactly for `None` and the empty string. -/
def is_city_allowed (city_name : Option String) (allowed_cities : List String) : Bool :=
  match city_name with
  | none => false
  | some c =>
    if c = "" then false
    else
      let city_normalized := normalize_city_name c
      allowed_cities.any (fun allowed_city =>
        city_normalized == normalize_city_name allowed_city)

/-! ## HTTP world model -/

/-- Outcome of one `requests.get` call, as observed by the code under the
`try`: a timeout exception, some other exception (with its message, as
produced by `str(e)`), or a response carrying a status code, the JSON
object (modelled as an association list of string fields, `response.json()`)
and the raw body text (`response.text`). -/
inductive HttpOutcome where
  | timeout : HttpOutcome
  | exn (msg : String) : HttpOutcome
  | resp (status_code : Nat) (json : List (String × String)) (text : String) : HttpOutcome
deriving DecidableEq, Repr

/-- Python `dict.get(key, default)` on the modelled JSON object. -/
def jsonGet (json : List (String × String)) (key dflt : String) : String :=
  match json.find? (fun p => p.1 == key) with
  | some p => p.2
  | none => dflt

/-- Python `needle in haystack` substring test. -/
def strContainsSub (hay needle : String) : Bool :=
  go hay.data
where
  go : List Char → Bool
  | [] => needle.data.isPrefixOf []
  | c :: rest => needle.data.isPrefixOf (c :: rest) || go rest

/-! ## `get_city_from_ip` (source lines 93-149) -/

/-- The result dictionary returned by `get_city_from_ip`: keys `city`,
`region`, `country` (present/absent modelled with `Option`), `success`,
and the `error` key which is present exactly on the failure dictionaries. -/
structure GeoResult where
  city : Option String
  region : Option String
  country : Option String
  success : Bool
  error : Option String
deriving DecidableEq, Repr

/-- The local/invalid IP sentinels checked at source line 98. -/
def localSentinels : List String := ["127.0.0.1", "localhost", "Unknown"]

/-- `get_city_from_ip(ip)`. The outcome of the single outbound
`requests.get` to `ip-api.com` is passed in as `net`; the second component
of the result counts the outbound HTTP calls performed (0 or 1). -/
def get_city_from_ip (ip : String) (net : HttpOutcome) : GeoResult × Nat :=
  if ip ∈ localSentinels then
    (⟨none, none, none, false, some "IP local ou inválido"⟩, 0)
  else
    match net with
    | .timeout => (⟨none, none, none, false, some "Timeout na requisição"⟩, 1)
    | .exn msg => (⟨none, none, none, false, some msg⟩, 1)
    | .resp status_code json _ =>
      if status_code == 200 then
        if jsonGet json "status" "" == "success" then
          (⟨some (jsonGet json "city" ""), some (jsonGet json "regionName" ""),
            some (jsonGet json "country" ""), true, none⟩, 1)
        else
          (⟨none, none, none, false, some (jsonGet json "message" "Erro na API")⟩, 1)
      else
        (⟨none, none, none, false, some ("Erro HTTP " ++ toString status_code)⟩, 1)

/-! ## `get_client_ip` (source lines 23-67) -/

/-- The fixed provider list of source lines 28-33. -/
def apis : List String :=
  ["https://api.ipify.org?format=json",
   "https://ipapi.co/ip/",
   "https://icanhazip.com",
   "https://ifconfig.me/ip"]

/-- The auto-detect geolocation endpoint of source line 55. -/
def geoAutoUrl : String := "http://ip-api.com/json/?fields=query"

/-- The acceptability filter of source line 47:
`if ip and ip != '127.0.0.1' and not ip.startswith('192.168.') and not
ip.startswith('10.')`. `str.startswith` is modelled on the character
lists. -/
def acceptableIp (ip : String) : Bool :=
  ip ≠ "" && ip ≠ "127.0.0.1" &&
    !("192.168.".data.isPrefixOf ip.data) && !("10.".data.isPrefixOf ip.data)

/-- One iteration of the provider loop (source lines 36-50): on a 200
response extract the IP (`response.json().get('ip', '')` for the ipify
provider, `response.text.strip()` otherwise) and return it if acceptable;
any exception or unacceptable value yields `none` (loop continues). -/
def echoStep (api_url : String) (r : HttpOutcome) : Option String :=
  match r with
  | .timeout => none
  | .exn _ => none
  | .resp status_code json text =>
    if status_code == 200 then
      let ip :=
        if strContainsSub api_url "ipify" then jsonGet json "ip" ""
        else if strContainsSub api_url "ipapi.co" then String.mk (pyStrip text.data)
        else String.mk (pyStrip text.data)
      if acceptableIp ip then some ip else none
    else none

/-- The provider loop: first acceptable result wins; also returns the list
of URLs actually contacted, in order. -/
def echoChain : List String → (String → HttpOutcome) → Option String × List String
  | [], _ => (none, [])
  | u :: rest, net =>
    match echoStep u (net u) with
    | some ip => (some ip, [u])
    | none =>
      let r := echoChain rest net
      (r.1, u :: r.2)

/-- The geolocation auto-detect fallback (source lines 54-62): on a 200
response take `data.get('query', '')` and return it if non-empty (`if ip:`);
exceptions, non-200 statuses and empty values all fall through. -/
def geoAutoIp (r : HttpOutcome) : Option String :=
  match r with
  | .timeout => none
  | .exn _ => none
  | .resp status_code json _ =>
    if status_code == 200 then
      let ip := jsonGet json "query" ""
      if ip = "" then none else some ip
    else none

/-- `get_client_ip()`. The HTTP world is passed in as `net : String →
HttpOutcome` (outcome of `requests.get` per URL); `outerFault = true`
models an unexpected exception escaping the inner handlers and reaching
the outer `except Exception` (source lines 66-67). The second component is
the list of URLs contacted. -/
def get_client_ip (net : String → HttpOutcome) (outerFault : Bool) : String × List String :=
  if outerFault then ("Unknown", [])
  else
    let e := echoChain apis net
    match e.1 with
    | some ip => (ip, e.2)
    | none =>
      match geoAutoIp (net geoAutoUrl) with
      | some ip => (ip, e.2 ++ [geoAutoUrl])
      | none => ("127.0.0.1", e.2 ++ [geoAutoUrl])

/-- The `GeoResult` well-formedness invariant of the spec (§3): a successful
result carries all three location fields and no error; a failed result
carries an error and no location fields. -/
def geoInvariant (r : GeoResult) : Bool :=
  if r.success then
    r.city.isSome && r.region.isSome && r.country.isSome && r.error.isNone
  else
    r.error.isSome && r.city.isNone && r.region.isNone && r.country.isNone

/-- A character the pipeline has already produced: NFKD-fixed,
non-combining, lower-case-fixed, and outside `[A-Z]`. -/
def NormalChar (c : Char) : Prop :=
  nfkdChar c = [c] ∧ isCombining c = false ∧ pyLowerChar c = c ∧ isUpperAZ c = false

/-! ## Helper lemmas -/

/-- If every provider in the list yields no acceptable result, the loop
visits all of them and produces nothing. -/
theorem echoChain_all_none (l : List String) (net : String → HttpOutcome)
    (h : ∀ u ∈ l, echoStep u (net u) = none) : echoChain l net = (none, l) := by
  induction l with
  | nil => rfl
  | cons u rest ih =>
    have hu : echoStep u (net u) = none := h u (List.mem_cons_self u rest)
    have hrest : ∀ v ∈ rest, echoStep v (net v) = none :=
      fun v hv => h v (List.mem_cons_of_mem u hv)
    simp [echoChain, hu, ih hrest]

/-- `dict.get` on a singleton association list whose key matches. -/
theorem jsonGet_single (k v d : String) : jsonGet [(k, v)] k d = v := by
  simp [jsonGet, List.find?]

/-! ## Claim theorems -/

/-- C1: the claim says `normalize` strips a trailing two-letter region-code
suffix, so that both `"Palmas - TO"` and `"Palmas-TO"` normalize to
`"palmas"`. The code lower-cases before applying the case-sensitive
pattern `\s*-\s*[A-Z]{2}\s*$`, so the pattern can never match and the
suffix survives: both inputs keep their `to` tails. -/
theorem normalize_region_suffix_not_stripped :
    normalize_city_name "Palmas - TO" = "palmas - to" ∧
    normalize_city_name "Palmas-TO" = "palmas-to" ∧
    "palmas - to" ≠ "palmas" ∧ "palmas-to" ≠ "palmas" := by decide

/-- C2: of the four documented examples of `is_city_allowed`, the first —
`is_allowed("Palmas - TO", ["Palmas"])` claimed `true` — evaluates to
`false` on the code, because the dead region-suffix regex leaves
`"palmas - to"`, which differs from `"palmas"`. The other three examples
hold. -/
theorem is_city_allowed_examples :
    is_city_allowed (some "Palmas - TO") ["Palmas"] = false ∧
    is_city_allowed (some "Other City") ["Palmas"] = false ∧
    is_city_allowed none ["Palmas"] = false ∧
    is_city_allowed (some "Palmas") [] = false := by decide

/-- C3 (counterexample): the claim fixes the error message as exactly
`"local or invalid IP"`, but the code returns the Portuguese message
`'IP local ou inválido'` on the sentinel short-circuit path. -/
theorem geolocate_sentinel_error_string :
    (get_city_from_ip "127.0.0.1" HttpOutcome.timeout).1.error ≠ some "local or invalid IP" ∧
    (get_city_from_ip "127.0.0.1" HttpOutcome.timeout).1.error = some "IP local ou inválido" := by
  decide

/-- C3 (amended): for any of the three local/invalid sentinels the resolver
short-circuits, independent of the network, to `success=false` with error
exactly `'IP local ou inválido'`, the location fields absent, and zero
outbound calls. -/
theorem geolocate_sentinel_short_circuit (ip : String) (net : HttpOutcome)
    (h : ip ∈ localSentinels) :
    get_city_from_ip ip net = (⟨none, none, none, false, some "IP local ou inválido"⟩, 0) := by
  simp [get_city_from_ip, h]

/-- C3 witness: the short-circuit at `ip = "localhost"` under an arbitrary
concrete network outcome. -/
theorem geolocate_sentinel_short_circuit_spot :
    get_city_from_ip "localhost" (HttpOutcome.exn "boom") =
      (⟨none, none, none, false, some "IP local ou inválido"⟩, 0) :=
  geolocate_sentinel_short_circuit "localhost" (HttpOutcome.exn "boom") (by decide)

/-- C4: every `GeoResult` returned by the geolocation resolver, on every
execution path (sentinel short-circuit, provider success, provider-reported
failure, HTTP error, timeout, other exception), satisfies the invariant:
`success=true` implies the three location fields are present and `error`
is absent; `success=false` implies `error` is present and the location
fields are absent. -/
theorem geoResult_invariant (ip : String) (net : HttpOutcome) :
    geoInvariant (get_city_from_ip ip net).1 = true := by
  by_cases hs : ip ∈ localSentinels
  · simp [get_city_from_ip, geoInvariant, hs]
  · cases net with
    | timeout => simp [get_city_from_ip, geoInvariant, hs]
    | exn m => simp [get_city_from_ip, geoInvariant, hs]
    | resp s j t =>
      by_cases h200 : s = 200
      · by_cases hsucc : jsonGet j "status" "" = "success"
        · simp [get_city_from_ip, geoInvariant, hs, h200, hsucc]
        · simp [get_city_from_ip, geoInvariant, hs, h200, hsucc]
      · simp [get_city_from_ip, geoInvariant, hs, h200]

/-- C7 (counterexample): the claim says the success path populates the
fields "with whitespace trimmed"; the code copies `data.get(...)` verbatim,
so a provider city `" Palmas "` is returned untrimmed. -/
theorem geolocate_success_no_trim :
    (get_city_from_ip "200.120.10.5"
      (HttpOutcome.resp 200 [("status", "success"), ("city", " Palmas "),
        ("regionName", "Tocantins"), ("country", "Brazil")] "")).1.success = true ∧
    (get_city_from_ip "200.120.10.5"
      (HttpOutcome.resp 200 [("status", "success"), ("city", " Palmas "),
        ("regionName", "Tocantins"), ("country", "Brazil")] "")).1.city = some " Palmas " ∧
    (" Palmas " : String) ≠ "Palmas" := by decide

/-- C7 (amended): on a provider-reported success status (for a non-sentinel
input IP) the resolver sets `success=true` and copies the `city`,
`regionName` and `country` fields verbatim — no whitespace trimming — with
one outbound call. -/
theorem geolocate_success_verbatim (ip : String) (json : List (String × String)) (text : String)
    (hip : ip ∉ localSentinels) (hst : jsonGet json "status" "" = "success") :
    get_city_from_ip ip (HttpOutcome.resp 200 json text) =
      (⟨some (jsonGet json "city" ""), some (jsonGet json "regionName" ""),
        some (jsonGet json "country" ""), true, none⟩, 1) := by
  simp [get_city_from_ip, hip, hst]

/-- C7 witness: the documented example JSON yields exactly
`city "Palmas"`, `region "Tocantins"`, `country "Brazil"`, `success=true`. -/
theorem geolocate_success_verbatim_spot :
    get_city_from_ip "200.120.10.5"
      (HttpOutcome.resp 200 [("status", "success"), ("city", "Palmas"),
        ("regionName", "Tocantins"), ("country", "Brazil")] "") =
      (⟨some "Palmas", some "Tocantins", some "Brazil", true, none⟩, 1) := by
  have h := geolocate_success_verbatim "200.120.10.5"
    [("status", "success"), ("city", "Palmas"), ("regionName", "Tocantins"),
     ("country", "Brazil")] "" (by decide) (by decide)
  rw [h]
  decide

/-- C5: the IP resolver tries the echo providers in their fixed order and
returns the first acceptable result without contacting later providers:
with provider 1 answering the unacceptable `"192.168.1.5"` and provider 2
answering `"203.0.113.9"`, the result is `"203.0.113.9"` and only the
first two URLs are contacted. Moreover the acceptability filter is
exactly: non-empty, not the loopback address, and not starting with a
private-range prefix. -/
theorem get_client_ip_first_acceptable (net : String → HttpOutcome)
    (h1 : net "https://api.ipify.org?format=json" =
      HttpOutcome.resp 200 [("ip", "192.168.1.5")] "")
    (h2 : net "https://ipapi.co/ip/" = HttpOutcome.resp 200 [] "203.0.113.9") :
    get_client_ip net false =
      ("203.0.113.9", ["https://api.ipify.org?format=json", "https://ipapi.co/ip/"]) ∧
    ∀ s : String, acceptableIp s = true ↔
      (s ≠ "" ∧ s ≠ "127.0.0.1" ∧
       "192.168.".data.isPrefixOf s.data = false ∧ "10.".data.isPrefixOf s.data = false) := by
  constructor
  · have s1 : echoStep "https://api.ipify.org?format=json" (net "https://api.ipify.org?format=json") = none := by
      rw [h1]; decide
    have s2 : echoStep "https://ipapi.co/ip/" (net "https://ipapi.co/ip/") =
        some "203.0.113.9" := by
      rw [h2]; decide
    simp [get_client_ip, apis, echoChain, s1, s2]
  · intro s
    simp [acceptableIp, and_assoc]

/-- C5 witness: the fallback scenario instantiated with a concrete network. -/
theorem get_client_ip_first_acceptable_spot :
    get_client_ip (fun u =>
      if u = "https://api.ipify.org?format=json" then
        HttpOutcome.resp 200 [("ip", "192.168.1.5")] ""
      else if u = "https://ipapi.co/ip/" then HttpOutcome.resp 200 [] "203.0.113.9"
      else HttpOutcome.exn "unreachable") false =
      ("203.0.113.9", ["https://api.ipify.org?format=json", "https://ipapi.co/ip/"]) :=
  (get_client_ip_first_acceptable _ (by decide) (by decide)).1

/-- C6: the IP resolver is a total function that degrades to sentinels: if
every echo provider errors or answers unacceptably and the geolocation
auto-detect fallback also fails, it returns the loopback sentinel
`"127.0.0.1"`; and whenever an unexpected fault reaches the outer handler
the result is the literal sentinel `"Unknown"`. -/
theorem get_client_ip_total_failure (net : String → HttpOutcome)
    (hEcho : ∀ u ∈ apis, echoStep u (net u) = none)
    (hGeo : geoAutoIp (net geoAutoUrl) = none) :
    (get_client_ip net false).1 = "127.0.0.1" ∧
    ∀ m : String → HttpOutcome, (get_client_ip m true).1 = "Unknown" := by
  refine ⟨?_, fun m => rfl⟩
  simp [get_client_ip, echoChain_all_none apis net hEcho, hGeo]

/-- C6 witness: total failure with every request raising. -/
theorem get_client_ip_total_failure_spot :
    (get_client_ip (fun _ => HttpOutcome.exn "boom") false).1 = "127.0.0.1" :=
  (get_client_ip_total_failure (fun _ => HttpOutcome.exn "boom")
    (by decide) (by decide)).1

/-- C9: the acceptability filter applies only to the echo providers; the
geolocation auto-detect fallback returns any non-empty reported IP,
including loopback or private-range addresses. -/
theorem geo_fallback_unfiltered (net : String → HttpOutcome) (ip : String)
    (hEcho : ∀ u ∈ apis, echoStep u (net u) = none)
    (hGeo : net geoAutoUrl = HttpOutcome.resp 200 [("query", ip)] "")
    (hip : ip ≠ "") :
    (get_client_ip net false).1 = ip := by
  have hq : geoAutoIp (net geoAutoUrl) = some ip := by
    rw [hGeo]
    simp [geoAutoIp, jsonGet_single, hip]
  simp [get_client_ip, echoChain_all_none apis net hEcho, hq]

/-- C9 witness: the private-range address `"192.168.1.5"` — which the echo
step would reject — is returned untouched by the auto-detect fallback. -/
theorem geo_fallback_unfiltered_spot :
    (get_client_ip (fun u => if u = geoAutoUrl then
      HttpOutcome.resp 200 [("query", "192.168.1.5")] "" else HttpOutcome.exn "e") false).1 =
      "192.168.1.5" :=
  geo_fallback_unfiltered _ "192.168.1.5" (by decide) (by decide) (by decide)

/-- C10: a non-empty city whose normalized form is empty passes the
empty-city guard and matches any allow-list entry that also normalizes to
the empty string. -/
theorem is_city_allowed_empty_normal_forms (city : String) (allowed : List String) (a : String)
    (hc : city ≠ "") (hn : normalize_city_name city = "")
    (ha : a ∈ allowed) (hna : normalize_city_name a = "") :
    is_city_allowed (some city) allowed = true := by
  simp only [is_city_allowed, if_neg hc, List.any_eq_true]
  exact ⟨a, ha, by simp [hn, hna]⟩

/-- C10 witness: `is_city_allowed(",", [","]) = true`, since `","`
normalizes to the empty string. -/
theorem is_city_allowed_empty_normal_forms_spot :
    is_city_allowed (some ",") [","] = true :=
  is_city_allowed_empty_normal_forms "," [","] ","
    (by decide) (by decide) (by decide) (by decide)

/-! ## Idempotence of `normalize_city_name` for newline-free inputs -/

theorem toNat_ofNat_valid (n : Nat) (h : n.isValidChar) : (Char.ofNat n).toNat = n := by
  unfold Char.ofNat
  rw [dif_pos h]
  rfl

theorem isUpperAZ_toNat (c : Char) (h : isUpperAZ c = true) :
    65 ≤ c.toNat ∧ c.toNat ≤ 90 := by
  simpa [isUpperAZ] using h

theorem pyLowerChar_toNat_of_upper (c : Char) (h : isUpperAZ c = true) :
    (pyLowerChar c).toNat = c.toNat + 32 := by
  have hb := isUpperAZ_toNat c h
  unfold pyLowerChar
  rw [if_pos h]
  exact toNat_ofNat_valid _ (Or.inl (by omega))

theorem isUpperAZ_pyLowerChar (c : Char) : isUpperAZ (pyLowerChar c) = false := by
  cases hu : isUpperAZ c with
  | true =>
    have ht := pyLowerChar_toNat_of_upper c hu
    have hb := isUpperAZ_toNat c hu
    simp only [isUpperAZ, ht]
    simp only [Bool.and_eq_false_iff, decide_eq_false_iff_not]
    omega
  | false =>
    simp [pyLowerChar, hu]

theorem pyLowerChar_idem (c : Char) : pyLowerChar (pyLowerChar c) = pyLowerChar c := by
  conv_lhs => rw [pyLowerChar]
  rw [if_neg]
  simp [isUpperAZ_pyLowerChar c]

theorem nfkdChar_fixed_of_low (c : Char) (h : c.toNat < 0xC0) : nfkdChar c = [c] := by
  have htab : ∀ p ∈ nfkdTable, 0xC0 ≤ p.1.toNat := by decide
  unfold nfkdChar
  rw [List.find?_eq_none.mpr]
  intro p hp
  simp only [decide_eq_true_eq]
  intro hpc
  have h2 := htab p hp
  rw [hpc] at h2
  omega

theorem isCombining_of_low (c : Char) (h : c.toNat < 0x300) : isCombining c = false := by
  simp only [isCombining, Bool.and_eq_false_iff, decide_eq_false_iff_not]
  omega

/-- Every character produced by a single-character NFKD decomposition is
itself NFKD-fixed. -/
theorem nfkdChar_out_fixed (c c' : Char) (h : c' ∈ nfkdChar c) : nfkdChar c' = [c'] := by
  unfold nfkdChar at h
  cases hf : nfkdTable.find? (fun p => p.1 = c) with
  | none =>
    rw [hf] at h
    have : c' = c := by simpa using h
    subst this
    unfold nfkdChar
    rw [hf]
  | some p =>
    rw [hf] at h
    have hp : p ∈ nfkdTable := List.mem_of_find?_eq_some hf
    have htab : ∀ q ∈ nfkdTable, ∀ d ∈ q.2, nfkdChar d = [d] := by decide
    exact htab p hp c' h

/-- NFKD-fixedness and non-combiningness survive lower-casing. -/
theorem normalChar_pyLowerChar (c : Char) (hn : nfkdChar c = [c])
    (hc : isCombining c = false) : NormalChar (pyLowerChar c) := by
  refine ⟨?_, ?_, pyLowerChar_idem c, isUpperAZ_pyLowerChar c⟩
  · cases hu : isUpperAZ c with
    | true =>
      exact nfkdChar_fixed_of_low _ (by rw [pyLowerChar_toNat_of_upper c hu]
                                        have := isUpperAZ_toNat c hu
                                        omega)
    | false =>
      rw [show pyLowerChar c = c by simp [pyLowerChar, hu]]
      exact hn
  · cases hu : isUpperAZ c with
    | true =>
      refine isCombining_of_low _ ?_
      rw [pyLowerChar_toNat_of_upper c hu]
      have := isUpperAZ_toNat c hu
      omega
    | false =>
      rw [show pyLowerChar c = c by simp [pyLowerChar, hu]]
      exact hc

/-! ### Membership transport through the pipeline stages -/

theorem mem_pyStrip (l : List Char) (c : Char) (h : c ∈ pyStrip l) : c ∈ l := by
  unfold pyStrip at h
  rw [List.mem_reverse] at h
  have h1 := (List.dropWhile_sublist (l := (l.dropWhile isPySpace).reverse) isPySpace).subset h
  rw [List.mem_reverse] at h1
  exact (List.dropWhile_sublist (l := l) isPySpace).subset h1

theorem mem_subRegionTail (l : List Char) (c : Char) (h : c ∈ subRegionTail l) : c ∈ l := by
  induction l with
  | nil => simp [subRegionTail] at h
  | cons a rest ih =>
    rw [subRegionTail] at h
    by_cases hm : matchRegionAt (a :: rest) = true
    · rw [if_pos hm] at h
      exact absurd h (List.not_mem_nil c)
    · rw [if_neg hm] at h
      rcases List.mem_cons.mp h with h1 | h1
      · exact h1 ▸ List.mem_cons_self a rest
      · exact List.mem_cons_of_mem a (ih h1)

theorem mem_commaKeep (l : List Char) (c : Char) (h : c ∈ commaKeep l) : c ∈ l := by
  unfold commaKeep at h
  split at h
  · next rest hd =>
    split at h
    · next hlast =>
      have hc : c = '\n' := by simpa using h
      subst hc
      have h1 : '\n' ∈ rest.dropWhile isPySpace := List.mem_of_mem_getLast? (by simp [hlast])
      have h2 := (List.dropWhile_sublist (l := rest) isPySpace).subset h1
      have h3 : '\n' ∈ l.dropWhile isPySpace := by rw [hd]; exact List.mem_cons_of_mem _ h2
      exact (List.dropWhile_sublist (l := l) isPySpace).subset h3
    · exact absurd h (List.not_mem_nil c)
  · exact absurd h (List.not_mem_nil c)

theorem mem_subCommaTail (l : List Char) (c : Char) (h : c ∈ subCommaTail l) : c ∈ l := by
  induction l with
  | nil => simp [subCommaTail] at h
  | cons a rest ih =>
    rw [subCommaTail] at h
    by_cases hm : matchCommaAt (a :: rest) = true
    · rw [if_pos hm] at h
      exact mem_commaKeep _ c h
    · rw [if_neg hm] at h
      rcases List.mem_cons.mp h with h1 | h1
      · exact h1 ▸ List.mem_cons_self a rest
      · exact List.mem_cons_of_mem a (ih h1)

/-! ### Fixed-point lemmas for the pipeline stages -/

theorem flatMap_id_of_mem (l : List Char) (f : Char → List Char)
    (h : ∀ c ∈ l, f c = [c]) : l.flatMap f = l := by
  induction l with
  | nil => rfl
  | cons a rest ih =>
    rw [List.flatMap_cons, h a (List.mem_cons_self a rest),
      ih (fun c hc => h c (List.mem_cons_of_mem a hc))]
    rfl

theorem map_id_of_mem (l : List Char) (f : Char → Char)
    (h : ∀ c ∈ l, f c = c) : l.map f = l := by
  induction l with
  | nil => rfl
  | cons a rest ih =>
    rw [List.map_cons, h a (List.mem_cons_self a rest),
      ih (fun c hc => h c (List.mem_cons_of_mem a hc))]

theorem head?_dropWhile_not (l : List Char) (p : Char → Bool) (c : Char)
    (h : (l.dropWhile p).head? = some c) : p c = false := by
  induction l with
  | nil => simp at h
  | cons a rest ih =>
    rw [List.dropWhile_cons] at h
    by_cases hp : p a = true
    · rw [if_pos hp] at h
      exact ih h
    · rw [if_neg hp] at h
      have : a = c := by simpa using h
      subst this
      simpa using hp

theorem getLast?_dropWhile_stable (l : List Char) (p : Char → Bool)
    (h : l.dropWhile p ≠ []) : (l.dropWhile p).getLast? = l.getLast? := by
  induction l with
  | nil => simp at h
  | cons a rest ih =>
    rw [List.dropWhile_cons]
    by_cases hp : p a = true
    · rw [List.dropWhile_cons, if_pos hp] at h
      have hrest : rest ≠ [] := by
        intro he
        subst he
        simp at h
      rw [if_pos hp, ih h]
      cases rest with
      | nil => exact absurd rfl hrest
      | cons b t => rw [List.getLast?_cons_cons]
    · rw [if_neg hp]

theorem dropWhile_eq_self_of_head (l : List Char) (p : Char → Bool)
    (h : ∀ c, l.head? = some c → p c = false) : l.dropWhile p = l := by
  cases l with
  | nil => rfl
  | cons a rest =>
    rw [List.dropWhile_cons, if_neg]
    simp [h a rfl]

theorem pyStrip_head (l : List Char) (c : Char) (h : (pyStrip l).head? = some c) :
    isPySpace c = false := by
  unfold pyStrip at h
  rw [List.head?_reverse] at h
  set B := ((l.dropWhile isPySpace).reverse.dropWhile isPySpace) with hB
  have hBne : B ≠ [] := by
    intro he
    rw [he] at h
    simp at h
  rw [getLast?_dropWhile_stable _ _ hBne, List.getLast?_reverse] at h
  exact head?_dropWhile_not _ _ _ h

theorem pyStrip_last (l : List Char) (c : Char) (h : (pyStrip l).getLast? = some c) :
    isPySpace c = false := by
  unfold pyStrip at h
  rw [List.getLast?_reverse] at h
  exact head?_dropWhile_not _ _ _ h

theorem pyStrip_eq_self (l : List Char)
    (hh : ∀ c, l.head? = some c → isPySpace c = false)
    (hl : ∀ c, l.getLast? = some c → isPySpace c = false) : pyStrip l = l := by
  unfold pyStrip
  rw [dropWhile_eq_self_of_head l _ hh]
  rw [dropWhile_eq_self_of_head l.reverse _ (fun c hc => hl c (by rwa [List.head?_reverse] at hc))]
  exact List.reverse_reverse l

/-! ### Matcher analysis -/

theorem matchRegionAt_false_of_no_upper (l : List Char)
    (h : ∀ c ∈ l, isUpperAZ c = false) : matchRegionAt l = false := by
  unfold matchRegionAt
  split
  · next rest hd =>
    split
    · next a b rest2 hd2 =>
      have ha : a ∈ l := by
        have h1 : a ∈ rest.dropWhile isPySpace := by rw [hd2]; exact List.mem_cons_self a _
        have h2 := (List.dropWhile_sublist (l := rest) isPySpace).subset h1
        have h3 : a ∈ l.dropWhile isPySpace := by rw [hd]; exact List.mem_cons_of_mem _ h2
        exact (List.dropWhile_sublist (l := l) isPySpace).subset h3
      rw [h a ha]
      rfl
    · rfl
  · rfl

theorem matchCommaAt_false_of_no_comma (l : List Char)
    (h : ',' ∉ l) : matchCommaAt l = false := by
  unfold matchCommaAt
  split
  · next rest hd =>
    exfalso
    apply h
    have h1 : ',' ∈ l.dropWhile isPySpace := by rw [hd]; exact List.mem_cons_self ',' rest
    exact (List.dropWhile_sublist (l := l) isPySpace).subset h1
  · rfl

theorem matchCommaAt_true_of_head_comma (rest : List Char)
    (h : '\n' ∉ rest) : matchCommaAt (',' :: rest) = true := by
  unfold matchCommaAt
  have hd : (',' :: rest).dropWhile isPySpace = ',' :: rest := by
    rw [List.dropWhile_cons, if_neg]
    simp [isPySpace]
  rw [hd]
  simp only [dotStarEnd, List.all_eq_true]
  intro c hc
  have h1 : c ∈ rest.dropWhile isPySpace :=
    (List.dropLast_sublist (l := rest.dropWhile isPySpace)).subset hc
  have h2 := (List.dropWhile_sublist (l := rest) isPySpace).subset h1
  have hcn : c ≠ '\n' := fun he => h (he ▸ h2)
  simpa using hcn

theorem subRegionTail_eq_self (l : List Char)
    (h : ∀ c ∈ l, isUpperAZ c = false) : subRegionTail l = l := by
  induction l with
  | nil => rfl
  | cons a rest ih =>
    rw [subRegionTail, if_neg, ih (fun c hc => h c (List.mem_cons_of_mem a hc))]
    simp [matchRegionAt_false_of_no_upper _ h]

theorem subCommaTail_eq_self (l : List Char)
    (h : ',' ∉ l) : subCommaTail l = l := by
  induction l with
  | nil => rfl
  | cons a rest ih =>
    rw [subCommaTail, if_neg, ih (fun hc => h (List.mem_cons_of_mem a hc))]
    simp [matchCommaAt_false_of_no_comma _ h]

/-- Output of the comma substitution contains no comma, provided the input
contains no newline (otherwise the `.*` cutoff can strand a comma). -/
theorem subCommaTail_no_comma (l : List Char) (h : '\n' ∉ l) : ',' ∉ subCommaTail l := by
  induction l with
  | nil => simp [subCommaTail]
  | cons a rest ih =>
    rw [subCommaTail]
    by_cases hm : matchCommaAt (a :: rest) = true
    · rw [if_pos hm]
      intro hmem
      have := mem_commaKeep _ _ hmem
      have hna : a ≠ ',' ∨ True := Or.inr trivial
      -- a comma in commaKeep is impossible: commaKeep ⊆ ['\n']
      unfold commaKeep at hmem
      split at hmem
      · split at hmem
        · simp at hmem
        · simp at hmem
      · simp at hmem
    · rw [if_neg hm]
      intro hmem
      rcases List.mem_cons.mp hmem with h1 | h1
      · apply absurd hm
        rw [← h1] at *
        simp only [not_not]
        exact matchCommaAt_true_of_head_comma rest (fun hn => h (List.mem_cons_of_mem _ hn))
      · exact ih (fun hn => h (List.mem_cons_of_mem _ hn)) h1

/-! ### Leading/trailing-character preservation through the substitutions -/

theorem matchRegionAt_cons_ws (c : Char) (l : List Char) (h : isPySpace c = true) :
    matchRegionAt (c :: l) = matchRegionAt l := by
  unfold matchRegionAt
  rw [List.dropWhile_cons, if_pos h]

theorem matchCommaAt_cons_ws (c : Char) (l : List Char) (h : isPySpace c = true) :
    matchCommaAt (c :: l) = matchCommaAt l := by
  unfold matchCommaAt
  rw [List.dropWhile_cons, if_pos h]

theorem commaKeep_eq_nil_of_no_newline (l : List Char) (h : '\n' ∉ l) : commaKeep l = [] := by
  unfold commaKeep
  split
  · next rest hd =>
    rw [if_neg]
    intro hlast
    apply h
    have h1 : '\n' ∈ rest.dropWhile isPySpace := List.mem_of_mem_getLast? (by simp [hlast])
    have h2 := (List.dropWhile_sublist (l := rest) isPySpace).subset h1
    have h3 : '\n' ∈ l.dropWhile isPySpace := by rw [hd]; exact List.mem_cons_of_mem _ h2
    exact (List.dropWhile_sublist (l := l) isPySpace).subset h3
  · rfl

theorem subRegionTail_head (l : List Char) :
    subRegionTail l = [] ∨ (subRegionTail l).head? = l.head? := by
  cases l with
  | nil => exact Or.inl rfl
  | cons a rest =>
    rw [subRegionTail]
    by_cases hm : matchRegionAt (a :: rest) = true
    · rw [if_pos hm]; exact Or.inl rfl
    · rw [if_neg hm]; exact Or.inr rfl

theorem subCommaTail_head (l : List Char) (h : '\n' ∉ l) :
    subCommaTail l = [] ∨ (subCommaTail l).head? = l.head? := by
  cases l with
  | nil => exact Or.inl rfl
  | cons a rest =>
    rw [subCommaTail]
    by_cases hm : matchCommaAt (a :: rest) = true
    · rw [if_pos hm, commaKeep_eq_nil_of_no_newline _ h]; exact Or.inl rfl
    · rw [if_neg hm]; exact Or.inr rfl

theorem subRegionTail_ne_nil_inv (l : List Char) (h : subRegionTail l = []) :
    l = [] ∨ matchRegionAt l = true := by
  cases l with
  | nil => exact Or.inl rfl
  | cons a rest =>
    rw [subRegionTail] at h
    by_cases hm : matchRegionAt (a :: rest) = true
    · exact Or.inr hm
    · rw [if_neg hm] at h; exact absurd h (List.cons_ne_nil a _)

theorem subCommaTail_ne_nil_inv (l : List Char) (h : subCommaTail l = []) :
    l = [] ∨ matchCommaAt l = true := by
  cases l with
  | nil => exact Or.inl rfl
  | cons a rest =>
    rw [subCommaTail] at h
    by_cases hm : matchCommaAt (a :: rest) = true
    · exact Or.inr hm
    · rw [if_neg hm] at h; exact absurd h (List.cons_ne_nil a _)

theorem subRegionTail_last (l : List Char)
    (hl : ∀ c, l.getLast? = some c → isPySpace c = false) :
    ∀ c, (subRegionTail l).getLast? = some c → isPySpace c = false := by
  induction l with
  | nil => intro c hc; simp [subRegionTail] at hc
  | cons a rest ih =>
    intro c hc
    rw [subRegionTail] at hc
    by_cases hm : matchRegionAt (a :: rest) = true
    · rw [if_pos hm] at hc; simp at hc
    · rw [if_neg hm] at hc
      cases hr : subRegionTail rest with
      | nil =>
        rw [hr, List.getLast?_singleton] at hc
        have hac : a = c := by simpa using hc
        subst hac
        cases rest with
        | nil => exact hl a rfl
        | cons b t =>
          rcases subRegionTail_ne_nil_inv _ hr with h1 | h1
          · exact absurd h1 (List.cons_ne_nil b t)
          · by_cases hws : isPySpace a = true
            · rw [← matchRegionAt_cons_ws a (b :: t) hws] at h1
              exact absurd h1 hm
            · simpa using hws
      | cons x xs =>
        rw [hr] at hc
        rw [List.getLast?_cons_cons] at hc
        have hrest : rest ≠ [] := by
          intro he
          rw [he] at hr
          exact absurd hr.symm (List.cons_ne_nil x xs)
        refine ih ?_ c (by rw [hr]; exact hc)
        intro d hd
        apply hl
        cases rest with
        | nil => exact absurd rfl hrest
        | cons b t => rw [List.getLast?_cons_cons]; exact hd

theorem subCommaTail_last (l : List Char) (hnl : '\n' ∉ l)
    (hl : ∀ c, l.getLast? = some c → isPySpace c = false) :
    ∀ c, (subCommaTail l).getLast? = some c → isPySpace c = false := by
  induction l with
  | nil => intro c hc; simp [subCommaTail] at hc
  | cons a rest ih =>
    intro c hc
    rw [subCommaTail] at hc
    by_cases hm : matchCommaAt (a :: rest) = true
    · rw [if_pos hm, commaKeep_eq_nil_of_no_newline _ hnl] at hc; simp at hc
    · rw [if_neg hm] at hc
      cases hr : subCommaTail rest with
      | nil =>
        rw [hr, List.getLast?_singleton] at hc
        have hac : a = c := by simpa using hc
        subst hac
        cases rest with
        | nil => exact hl a rfl
        | cons b t =>
          rcases subCommaTail_ne_nil_inv _ hr with h1 | h1
          · exact absurd h1 (List.cons_ne_nil b t)
          · by_cases hws : isPySpace a = true
            · rw [← matchCommaAt_cons_ws a (b :: t) hws] at h1
              exact absurd h1 hm
            · simpa using hws
      | cons x xs =>
        rw [hr] at hc
        rw [List.getLast?_cons_cons] at hc
        have hrest : rest ≠ [] := by
          intro he
          rw [he] at hr
          exact absurd hr.symm (List.cons_ne_nil x xs)
        refine ih (fun hn => hnl (List.mem_cons_of_mem a hn)) ?_ c (by rw [hr]; exact hc)
        intro d hd
        apply hl
        cases rest with
        | nil => exact absurd rfl hrest
        | cons b t => rw [List.getLast?_cons_cons]; exact hd

/-! ### Newline propagation -/

theorem nfkdChar_no_newline (c : Char) (h : c ≠ '\n') : '\n' ∉ nfkdChar c := by
  unfold nfkdChar
  cases hf : nfkdTable.find? (fun p => p.1 = c) with
  | none =>
    intro hmem
    have h1 : '\n' = c := by simpa using hmem
    exact h h1.symm
  | some p =>
    have hp : p ∈ nfkdTable := List.mem_of_find?_eq_some hf
    have htab : ∀ q ∈ nfkdTable, '\n' ∉ q.2 := by decide
    exact htab p hp

theorem pyLowerChar_ne_newline (c : Char) (h : c ≠ '\n') : pyLowerChar c ≠ '\n' := by
  cases hu : isUpperAZ c with
  | true =>
    intro he
    have h1 : (pyLowerChar c).toNat = c.toNat + 32 := pyLowerChar_toNat_of_upper c hu
    rw [he] at h1
    have h2 := isUpperAZ_toNat c hu
    have : ('\n' : Char).toNat = 10 := rfl
    omega
  | false =>
    rw [show pyLowerChar c = c by simp [pyLowerChar, hu]]
    exact h

/-! ### Assembly: idempotence -/

theorem normalize_eq_list (s : String) (hs : ¬ s = "") :
    normalize_city_name s =
      String.mk (subCommaTail (subRegionTail (pyStrip
        (((s.data.flatMap nfkdChar).filter (fun c => !isCombining c)).map pyLowerChar)))) := by
  simp only [normalize_city_name, if_neg hs]

theorem pipeline_head_ws (l2 : List Char) (hNl : '\n' ∉ subRegionTail (pyStrip l2)) :
    ∀ c, (subCommaTail (subRegionTail (pyStrip l2))).head? = some c → isPySpace c = false := by
  intro c hc
  rcases subCommaTail_head _ hNl with h1 | h1
  · rw [h1] at hc; simp at hc
  · rw [h1] at hc
    rcases subRegionTail_head (pyStrip l2) with h2 | h2
    · rw [h2] at hc; simp at hc
    · rw [h2] at hc
      exact pyStrip_head _ _ hc

theorem pipeline_last_ws (l2 : List Char) (hNl : '\n' ∉ subRegionTail (pyStrip l2)) :
    ∀ c, (subCommaTail (subRegionTail (pyStrip l2))).getLast? = some c → isPySpace c = false :=
  subCommaTail_last _ hNl (subRegionTail_last _ (fun d hd => pyStrip_last l2 d hd))

/-- A list of pipeline-normal characters, stripped and tail-substituted,
is a fixed point of `normalize_city_name`. -/
theorem normalize_fixes_pipeline_output (l2 : List Char)
    (hGood : ∀ c ∈ l2, NormalChar c) (hNl : '\n' ∉ l2) :
    normalize_city_name (String.mk (subCommaTail (subRegionTail (pyStrip l2)))) =
      String.mk (subCommaTail (subRegionTail (pyStrip l2))) := by
  have hNl4 : '\n' ∉ subRegionTail (pyStrip l2) :=
    fun hmem => hNl (mem_pyStrip _ _ (mem_subRegionTail _ _ hmem))
  have hGoodL : ∀ c ∈ subCommaTail (subRegionTail (pyStrip l2)), NormalChar c :=
    fun c hc => hGood c (mem_pyStrip _ _ (mem_subRegionTail _ _ (mem_subCommaTail _ _ hc)))
  have hNoComma : ',' ∉ subCommaTail (subRegionTail (pyStrip l2)) :=
    subCommaTail_no_comma _ hNl4
  by_cases hL0 : String.mk (subCommaTail (subRegionTail (pyStrip l2))) = ""
  · rw [hL0]
    simp [normalize_city_name]
  · rw [normalize_eq_list _ hL0]
    rw [show (String.mk (subCommaTail (subRegionTail (pyStrip l2)))).data
        = subCommaTail (subRegionTail (pyStrip l2)) from rfl,
      flatMap_id_of_mem _ nfkdChar (fun c hc => (hGoodL c hc).1),
      List.filter_eq_self.mpr (fun c hc => by simp [(hGoodL c hc).2.1]),
      map_id_of_mem _ pyLowerChar (fun c hc => (hGoodL c hc).2.2.1),
      pyStrip_eq_self _ (pipeline_head_ws l2 hNl4) (pipeline_last_ws l2 hNl4),
      subRegionTail_eq_self _ (fun c hc => (hGoodL c hc).2.2.2),
      subCommaTail_eq_self _ hNoComma]

/-- C8 (counterexample): normalization is NOT idempotent on all strings.
On `"x,y ,\nz"` the comma regex `\s*,\s*.*$` cannot fire at the first
comma — `.` does not match the newline, so `.*$` cannot reach the end —
but fires at the second comma (whose `\s*` swallows the newline), leaving
`"x,y"`; a second pass then strips from the now-reachable first comma,
giving `"x"`. -/
theorem normalize_not_idempotent :
    normalize_city_name (normalize_city_name "x,y ,\nz") ≠ normalize_city_name "x,y ,\nz" ∧
    normalize_city_name "x,y ,\nz" = "x,y" ∧
    normalize_city_name (normalize_city_name "x,y ,\nz") = "x" := by decide

/-- C8 (amended): normalization is idempotent on every string that contains
no newline character: `normalize(normalize(s)) = normalize(s)`. -/
theorem normalize_idempotent_no_newline (s : String) (h : '\n' ∉ s.data) :
    normalize_city_name (normalize_city_name s) = normalize_city_name s := by
  by_cases hs : s = ""
  · rw [hs]
    simp [normalize_city_name]
  · rw [normalize_eq_list s hs]
    apply normalize_fixes_pipeline_output
    · intro c hc
      rcases List.mem_map.mp hc with ⟨c0, hc0, hlc⟩
      rcases List.mem_filter.mp hc0 with ⟨hc0f, hcomb⟩
      rcases List.mem_flatMap.mp hc0f with ⟨c1, _, hc01⟩
      have hn : nfkdChar c0 = [c0] := nfkdChar_out_fixed c1 c0 hc01
      have hcomb2 : isCombining c0 = false := by simpa using hcomb
      rw [← hlc]
      exact normalChar_pyLowerChar c0 hn hcomb2
    · intro hmem
      rcases List.mem_map.mp hmem with ⟨c0, hc0, hlc⟩
      rcases List.mem_filter.mp hc0 with ⟨hc0f, hcomb⟩
      rcases List.mem_flatMap.mp hc0f with ⟨c1, hc1, hc01⟩
      have hc1n : c1 ≠ '\n' := fun he => h (he ▸ hc1)
      have hc0n : c0 ≠ '\n' := fun he => nfkdChar_no_newline c1 hc1n (he ▸ hc01)
      exact pyLowerChar_ne_newline c0 hc0n hlc

/-- C8 witness: idempotence at a concrete newline-free accented input. -/
theorem normalize_idempotent_no_newline_spot :
    normalize_city_name (normalize_city_name "São Paulo, Brasil") =
      normalize_city_name "São Paulo, Brasil" :=
  normalize_idempotent_no_newline "São Paulo, Brasil" (by decide)
